import Mathlib

/-!
Shallow embedding of the sleep-insights data pipeline (src/src/App.tsx).

Conventions of the embedding:
* JavaScript numbers are modelled by the rationals, so arithmetic is exact;
  the floating-point value NaN is modelled by the absent value of an
  Option, which propagates through subtraction just as NaN does.
* Calendar dates are modelled by their day number (days since 1970-01-01,
  as an integer); the spec declares time-of-day irrelevant.
* A parsed tabular row (the output of the external CSV library) is an
  association list from header name to cell string; a missing column is a
  failed lookup, mirroring a JavaScript object's undefined property.
* JavaScript's built-in string-to-number, string-to-date and stable sort
  routines are modelled by executable Lean functions defined below; the
  model of the sort is insertion sort, which is stable, matching the
  required stability of Array.prototype.sort.
-/

namespace SleepApp

/-- Row shape produced by the external CSV parser: header name to cell text. -/
abbrev Row := List (String × String)

/-- Lookup of a column in a row; a missing column is a missing value,
mirroring an undefined object property in JavaScript. -/
def getField (row : Row) (key : String) : Option String :=
  (row.find? (fun p => p.1 == key)).map (fun p => p.2)

/-- Truthiness of an optional string as JavaScript sees it: absent values
and the empty string are falsy. -/
def truthy (o : Option String) : Bool :=
  match o with
  | some s => decide (s ≠ "")
  | none => false

/-- Model of the JavaScript operator a logical-or b on optional strings: the
first operand when it is truthy, otherwise the second operand unchanged. -/
def jsOr (a b : Option String) : Option String :=
  if truthy a then a else b

/-- Model of the JavaScript nullish-coalescing operator on optional strings:
the first operand unless it is absent. -/
def jsCoalesce (a b : Option String) : Option String :=
  match a with
  | some s => some s
  | none => b

/-- Whitespace characters recognised by the string trimming below. -/
def isJsSpace (c : Char) : Bool :=
  c == ' ' || c == '\t' || c == '\n' || c == '\r'

/-- Trim of a character list on both ends, modelling String.prototype.trim. -/
def jsTrimL (cs : List Char) : List Char :=
  ((cs.dropWhile isJsSpace).reverse.dropWhile isJsSpace).reverse

/-- Trim of a string on both ends, modelling String.prototype.trim. -/
def jsTrim (s : String) : String :=
  String.mk (jsTrimL s.data)

/-- Uppercasing of a string, modelling String.prototype.toUpperCase on the
ASCII inputs this pipeline feeds it. -/
def strUpper (s : String) : String :=
  String.mk (s.data.map Char.toUpper)

/-- Numeric value of a decimal digit character. -/
def digitVal (c : Char) : ℕ :=
  c.toNat - 48

/-- Numeric value of a string of decimal digit characters. -/
def digitsVal (ds : List Char) : ℕ :=
  ds.foldl (fun acc c => 10 * acc + digitVal c) 0

/-- Model of the built-in parseFloat: skip leading whitespace, read an
optional sign, then the longest decimal literal (integer digits, optional
fraction, optional exponent). The absent result models NaN, returned when
no digit is found. The Infinity literal, which parseFloat would accept, is
also mapped to the absent result; the one caller guards with isFinite and
treats the two cases identically. -/
def jsParseFloat (s : String) : Option ℚ :=
  let cs := s.data.dropWhile isJsSpace
  let sign : ℚ := match cs with
    | '-' :: _ => -1
    | _ => 1
  let cs := match cs with
    | '+' :: rest => rest
    | '-' :: rest => rest
    | _ => cs
  let ip := cs.takeWhile Char.isDigit
  let cs1 := cs.dropWhile Char.isDigit
  let fp := match cs1 with
    | '.' :: rest => rest.takeWhile Char.isDigit
    | _ => []
  let cs2 := match cs1 with
    | '.' :: rest => rest.dropWhile Char.isDigit
    | _ => cs1
  if ip.isEmpty && fp.isEmpty then none
  else
    let mant : ℚ := (digitsVal ip : ℚ) + (digitsVal fp : ℚ) / (10 : ℚ) ^ fp.length
    let expo : ℤ := match cs2 with
      | e :: rest =>
        if e == 'e' || e == 'E' then
          match rest with
          | '+' :: ds => if (ds.takeWhile Char.isDigit).isEmpty then 0
              else ((digitsVal (ds.takeWhile Char.isDigit) : ℤ))
          | '-' :: ds => if (ds.takeWhile Char.isDigit).isEmpty then 0
              else (-(digitsVal (ds.takeWhile Char.isDigit) : ℤ))
          | ds => if (ds.takeWhile Char.isDigit).isEmpty then 0
              else ((digitsVal (ds.takeWhile Char.isDigit) : ℤ))
        else 0
      | [] => 0
    some (sign * mant * (10 : ℚ) ^ expo)

/-- Replacement of the first comma by a decimal point, modelling the
single-replacement call replace in parseFloatSafe. -/
def replaceFirstComma : List Char → List Char
  | [] => []
  | c :: rest => if c == ',' then '.' :: rest else c :: replaceFirstComma rest

/-- Embedding of parseFloatSafe: stringify the possibly-absent value (an
absent value stringifies to the empty string via the nullish coalescing in
the source), normalise the first comma to a decimal point, parse, and
coerce a non-finite result to zero. -/
def parseFloatSafe (v : Option String) : ℚ :=
  match jsParseFloat (String.mk (replaceFirstComma (v.getD "").data)) with
  | some q => q
  | none => 0

/-- Decimal digits of a fractional remainder, used when rendering a
non-integral number back to text; fuel bounds the expansion. -/
def fracDigits : ℕ → ℕ → ℕ → List Char
  | 0, _, _ => []
  | _, 0, _ => []
  | fuel + 1, r, d =>
    let r10 := r * 10
    Char.ofNat (48 + r10 / d) :: fracDigits fuel (r10 % d) d

/-- Model of JavaScript number-to-string conversion for the values this
pipeline renders (integers and short terminating decimals coming out of
parseFloat): sign, integer part, and a decimal expansion of the remainder. -/
def jsNumToString (q : ℚ) : String :=
  let sgn := if q < 0 then "-" else ""
  let aq := |q|
  let ip := aq.num.toNat / aq.den
  let r := aq.num.toNat % aq.den
  if r = 0 then sgn ++ toString ip
  else sgn ++ toString ip ++ "." ++ String.mk (fracDigits 20 r aq.den)

/-- Leap-year test of the Gregorian calendar. -/
def isLeap (y : ℕ) : Bool :=
  (y % 4 == 0 && y % 100 != 0) || y % 400 == 0

/-- Number of days in a month of the Gregorian calendar. -/
def daysInMonth (y m : ℕ) : ℕ :=
  if m = 2 then (if isLeap y then 29 else 28)
  else if m = 4 || m = 6 || m = 9 || m = 11 then 30
  else 31

/-- Day number (days since 1970-01-01) of a Gregorian calendar date, the
standard civil-from-days conversion on integers. -/
def daysFromCivil (y m d : ℕ) : ℤ :=
  let yi : ℤ := if m ≤ 2 then (y : ℤ) - 1 else (y : ℤ)
  let era : ℤ := Int.fdiv yi 400
  let yoe : ℤ := yi - era * 400
  let mp : ℤ := Int.fmod ((m : ℤ) + 9) 12
  let doy : ℤ := Int.fdiv (153 * mp + 2) 5 + (d : ℤ) - 1
  let doe : ℤ := yoe * 365 + Int.fdiv yoe 4 - Int.fdiv yoe 100 + doy
  era * 146097 + doe - 719468

/-- Gregorian calendar date (year, month, day) of a day number, the
standard days-to-civil conversion on integers. -/
def civilFromDays (z0 : ℤ) : ℤ × ℤ × ℤ :=
  let z := z0 + 719468
  let era : ℤ := Int.fdiv z 146097
  let doe : ℤ := z - era * 146097
  let yoe : ℤ :=
    Int.fdiv (doe - Int.fdiv doe 1460 + Int.fdiv doe 36524 - Int.fdiv doe 146096) 365
  let y : ℤ := yoe + era * 400
  let doy : ℤ := doe - (365 * yoe + Int.fdiv yoe 4 - Int.fdiv yoe 100)
  let mp : ℤ := Int.fdiv (5 * doy + 2) 153
  let d : ℤ := doy - Int.fdiv (153 * mp + 2) 5 + 1
  let m : ℤ := if mp < 10 then mp + 3 else mp - 9
  (if m ≤ 2 then y + 1 else y, m, d)

/-- Model of the Date constructor on the date strings this pipeline feeds
it, restricted to the ISO calendar-date shape of four year digits, two
month digits and two day digits separated by hyphens; any other text is an
invalid date, the absent result. -/
def parseDate (s : String) : Option ℤ :=
  match s.data with
  | [y1, y2, y3, y4, h1, m1, m2, h2, d1, d2] =>
    if y1.isDigit && y2.isDigit && y3.isDigit && y4.isDigit &&
       h1 == '-' && m1.isDigit && m2.isDigit && h2 == '-' &&
       d1.isDigit && d2.isDigit then
      let y := 1000 * digitVal y1 + 100 * digitVal y2 + 10 * digitVal y3 + digitVal y4
      let m := 10 * digitVal m1 + digitVal m2
      let d := 10 * digitVal d1 + digitVal d2
      if 1 ≤ m && m ≤ 12 && 1 ≤ d && d ≤ daysInMonth y m then
        some (daysFromCivil y m d)
      else none
    else none
  | _ => none

/-- Embedding of addDays: day numbers make day arithmetic plain addition. -/
def addDays (d : ℤ) (n : ℤ) : ℤ :=
  d + n

/-- Two-digit zero padding, modelling padStart 2 with the zero character. -/
def pad2 (n : ℤ) : String :=
  if n < 10 then "0" ++ toString n else toString n

/-- Embedding of formatYM: the year-month grouping key of a date. -/
def formatYM (d : ℤ) : String :=
  let c := civilFromDays d
  toString c.1 ++ "-" ++ pad2 c.2.1

/-- Date rendered back to its ISO shape, modelling the slice of
toISOString used for chart labels. -/
def formatISO (d : ℤ) : String :=
  let c := civilFromDays d
  toString c.1 ++ "-" ++ pad2 c.2.1 ++ "-" ++ pad2 c.2.2

/-- Canonical night record (SleepRow in the source): a calendar date and
the five hour fields. -/
structure SleepRow where
  date : ℤ
  totalSleep : ℚ
  core : ℚ
  deep : ℚ
  rem : ℚ
  awake : ℚ
  deriving DecidableEq, Repr

/-- Canonical event record (MedEvent in the source): a calendar date and a
free-text label. -/
structure MedEvent where
  date : ℤ
  label : String
  deriving DecidableEq, Repr

/-- One calendar month's aggregate row (MonthlyData in the source). -/
structure MonthlyData where
  month : String
  remPct : ℚ
  deepPct : ℚ
  total : ℚ
  awake : ℚ
  n : ℕ
  deriving DecidableEq, Repr

/-- Resolution of the date column of a sleep row: the first truthy value
among the three accepted header names, as the or-chain in normalizeRow. -/
def resolveDateStr (row : Row) : Option String :=
  jsOr (jsOr (getField row "Date/Time") (getField row "Date")) (getField row "date")

/-- Embedding of normalizeRow: resolve and parse the date, dropping the
row when no date resolves or the date is invalid, then coerce the five
numeric fields through parseFloatSafe over their header alias chains. -/
def normalizeRow (row : Row) : Option SleepRow :=
  match resolveDateStr row with
  | none => none
  | some s =>
    if s = "" then none
    else
      match parseDate s with
      | none => none
      | some date =>
        some { date := date
               totalSleep := parseFloatSafe (jsCoalesce (jsCoalesce
                 (getField row "Total Sleep (hr)") (getField row "Asleep (hr)"))
                 (getField row "TotalSleep"))
               core := parseFloatSafe (jsCoalesce (getField row "Core (hr)") (getField row "Core"))
               deep := parseFloatSafe (jsCoalesce (getField row "Deep (hr)") (getField row "Deep"))
               rem := parseFloatSafe (jsCoalesce (getField row "REM (hr)") (getField row "REM"))
               awake := parseFloatSafe (jsCoalesce (getField row "Awake (hr)") (getField row "Awake")) }

/-- Date order on sleep rows used by the final sort of the normaliser; the
source comparator subtracts timestamps, so not-greater means keep. -/
def sleepLe (a b : SleepRow) : Prop :=
  a.date ≤ b.date

instance : DecidableRel sleepLe := fun a b => Int.decLe a.date b.date

/-- Embedding of parseCsv after the external CSV tokenizer has produced
the row list: normalise each row, drop failures, and stable-sort the
survivors ascending by date. -/
def parseCsv (rows : List Row) : List SleepRow :=
  List.insertionSort sleepLe (rows.filterMap normalizeRow)

/-- Embedding of rolling's loop: running sum plus a bounded queue of the
last window of accessor values; the head of the output is defined exactly
when the queue holds a full window. -/
def rollingAux {α : Type} (k : ℕ) (f : α → ℚ) : List α → ℚ → List ℚ → List (Option ℚ)
  | [], _, _ => []
  | x :: xs, sum, q =>
    let v := f x
    let sum1 := sum + v
    let q1 := q ++ [v]
    let p := if k < q1.length then (sum1 - q1.headI, q1.tail) else (sum1, q1)
    (if p.2.length = k then some (p.1 / (k : ℚ)) else none) :: rollingAux k f xs p.1 p.2

/-- Embedding of rolling: the sliding-window mean series of an accessor
over a sequence, one optional value per input index. -/
def rolling {α : Type} (arr : List α) (k : ℕ) (f : α → ℚ) : List (Option ℚ) :=
  rollingAux k f arr 0 []

/-- Derived stage percentage as the source computes it in the enrich and
event-delta stages: hours over total hours as a percentage, zero when the
total is falsy. -/
def pctOf (part total : ℚ) : ℚ :=
  if total ≠ 0 then part / total * 100 else 0

/-- Embedding of the filtered view: optional lower date bound, optional
upper date bound via the day after the bound, then the sleep-duration
range, applied in the source's order. -/
def filtered (rows : List SleepRow) (dateFrom dateTo : Option ℤ) (minHours maxHours : ℚ) :
    List SleepRow :=
  let r1 : List SleepRow := match dateFrom with
    | some df => rows.filter (fun r => decide (df ≤ r.date))
    | none => rows
  let r2 : List SleepRow := match dateTo with
    | some dt => r1.filter (fun r => decide (r.date < addDays dt 1))
    | none => r1
  r2.filter (fun r => decide (minHours ≤ r.totalSleep) && decide (r.totalSleep ≤ maxHours))

/-- Night record with its derived stage percentages attached, the
intermediate row shape of the enriched view. -/
structure PctRow where
  date : ℤ
  totalSleep : ℚ
  core : ℚ
  deep : ℚ
  rem : ℚ
  awake : ℚ
  remPct : ℚ
  deepPct : ℚ
  corePct : ℚ
  deriving DecidableEq, Repr

/-- Attachment of the three derived stage percentages to a night record. -/
def withPcts (r : SleepRow) : PctRow :=
  { date := r.date, totalSleep := r.totalSleep, core := r.core, deep := r.deep,
    rem := r.rem, awake := r.awake,
    remPct := pctOf r.rem r.totalSleep,
    deepPct := pctOf r.deep r.totalSleep,
    corePct := pctOf r.core r.totalSleep }

/-- Enriched chart row: percentages, a rendered date label, and the four
rolling means aligned to the row's index. -/
structure Enriched where
  row : PctRow
  dateStr : String
  remRoll : Option ℚ
  deepRoll : Option ℚ
  totalRoll : Option ℚ
  awakeRoll : Option ℚ
  deriving DecidableEq, Repr

/-- Embedding of the enriched view: derive percentages, run the rolling
aggregator over the four chart metrics, and attach each result at the
matching index. -/
def enrich (f : List SleepRow) (k : ℕ) : List Enriched :=
  let arr := f.map withPcts
  let remRoll := rolling arr k PctRow.remPct
  let deepRoll := rolling arr k PctRow.deepPct
  let totalRoll := rolling arr k PctRow.totalSleep
  let awakeRoll := rolling arr k PctRow.awake
  arr.enum.map (fun p =>
    { row := p.2, dateStr := formatISO p.2.date,
      remRoll := remRoll.getD p.1 none,
      deepRoll := deepRoll.getD p.1 none,
      totalRoll := totalRoll.getD p.1 none,
      awakeRoll := awakeRoll.getD p.1 none })

/-- Append of a row to its month's group in an association list keyed by
month, pushing a fresh group at the end for an unseen key; this is the
Map-building loop of monthGroups with the Map's key-insertion order. -/
def insertRow (acc : List (String × List SleepRow)) (key : String) (r : SleepRow) :
    List (String × List SleepRow) :=
  match acc with
  | [] => [(key, [r])]
  | (k, rs) :: rest =>
    if k = key then (k, rs ++ [r]) :: rest else (k, rs) :: insertRow rest key r

/-- Key order used when the month groups are sorted; the source comparator
returns minus one exactly when the first key is smaller. -/
def keyLt (a b : String × List SleepRow) : Prop :=
  a.1 < b.1

instance : DecidableRel keyLt := fun a b => inferInstanceAs (Decidable (a.1 < b.1))

/-- Embedding of monthGroups: group the rows by their formatted year-month
key in encounter order, then sort the groups by key. -/
def monthGroups (rows : List SleepRow) : List (String × List SleepRow) :=
  List.insertionSort keyLt
    (rows.foldl (fun acc r => insertRow acc (formatYM r.date) r) [])

/-- Per-group aggregation of monthlyData: total and awake means over the
whole group, percentage means over only the rows with positive total
sleep, zero when that subset is empty. -/
def summarize (ym : String) (rows : List SleepRow) : MonthlyData :=
  let validRows : List SleepRow := rows.filter (fun r => decide (0 < r.totalSleep))
  let remPct : ℚ :=
    if 0 < validRows.length then
      (validRows.map (fun r => r.rem / r.totalSleep * 100)).sum / (validRows.length : ℚ)
    else 0
  let deepPct : ℚ :=
    if 0 < validRows.length then
      (validRows.map (fun r => r.deep / r.totalSleep * 100)).sum / (validRows.length : ℚ)
    else 0
  let total : ℚ := (rows.map SleepRow.totalSleep).sum / (rows.length : ℚ)
  let awake : ℚ := (rows.map SleepRow.awake).sum / (rows.length : ℚ)
  { month := ym, remPct := remPct, deepPct := deepPct, total := total,
    awake := awake, n := rows.length }

/-- Sortable columns of the monthly summary table. -/
inductive SortCol
  | month
  | remPct
  | deepPct
  | total
  | awake
  | n
  deriving DecidableEq, Repr

/-- Sort direction of the monthly summary table. -/
inductive SortDir
  | asc
  | desc
  deriving DecidableEq, Repr

/-- Strict order of two monthly rows on one column, the comparisons the
source comparator performs on the selected field. -/
def colLt (c : SortCol) (a b : MonthlyData) : Bool :=
  match c with
  | SortCol.month => decide (a.month < b.month)
  | SortCol.remPct => decide (a.remPct < b.remPct)
  | SortCol.deepPct => decide (a.deepPct < b.deepPct)
  | SortCol.total => decide (a.total < b.total)
  | SortCol.awake => decide (a.awake < b.awake)
  | SortCol.n => decide (a.n < b.n)

/-- Comparator of the monthly table sort, returning the sign the source
comparator returns for the selected column and direction. -/
def monthlyCmp (c : SortCol) (dir : SortDir) (a b : MonthlyData) : ℤ :=
  if colLt c a b then (match dir with | SortDir.asc => -1 | SortDir.desc => 1)
  else if colLt c b a then (match dir with | SortDir.asc => 1 | SortDir.desc => -1)
  else 0

/-- Keep-order relation induced by the monthly comparator: a stays before
b when the comparator does not order it strictly after. -/
def monthlyLe (c : SortCol) (dir : SortDir) (a b : MonthlyData) : Prop :=
  monthlyCmp c dir a b ≤ 0

instance (c : SortCol) (dir : SortDir) : DecidableRel (monthlyLe c dir) :=
  fun a b => inferInstanceAs (Decidable (monthlyCmp c dir a b ≤ 0))

/-- Embedding of monthlyData: summarise every month group of the full
record set and stable-sort the summaries by the selected column and
direction. -/
def monthlyData (rows : List SleepRow) (c : SortCol) (dir : SortDir) : List MonthlyData :=
  List.insertionSort (monthlyLe c dir)
    ((monthGroups rows).map (fun p => summarize p.1 p.2))

/-- Filter and derivation parameters plus the monthly sort directive, the
configuration surface the UI feeds the pipeline. -/
structure Config where
  minHours : ℚ
  maxHours : ℚ
  dateFrom : Option ℤ
  dateTo : Option ℤ
  rollK : ℕ
  sortColumn : SortCol
  sortDirection : SortDir

/-- Derived views the component computes from the loaded rows and the
configuration: the filtered rows, the enriched chart rows, and the monthly
summary rows. -/
structure AppViews where
  filteredRows : List SleepRow
  enrichedRows : List Enriched
  monthlyRows : List MonthlyData

/-- Wiring of the derived views as in the component: the filtered and
enriched views read the filter parameters, while the monthly view reads
the unfiltered full record set and only the sort directive. -/
def appViews (sleepRows : List SleepRow) (cfg : Config) : AppViews :=
  let f := filtered sleepRows cfg.dateFrom cfg.dateTo cfg.minHours cfg.maxHours
  { filteredRows := f
    enrichedRows := enrich f cfg.rollK
    monthlyRows := monthlyData sleepRows cfg.sortColumn cfg.sortDirection }

/-- Separator token of the line-format medication log. -/
def medSep : List Char :=
  [' ', '-', ' ']

/-- Index of the first occurrence of a separator inside a character list,
modelling String.prototype.indexOf with an absent result for minus one. -/
def firstSepIdx (sep : List Char) : List Char → Option ℕ
  | [] => if sep.isEmpty then some 0 else none
  | c :: rest =>
    if (c :: rest).take sep.length == sep then some 0
    else (firstSepIdx sep rest).map (fun i => i + 1)

/-- Split of the raw medication text into lines, modelling the split on an
optional carriage return followed by a newline. -/
def splitNL (cs : List Char) : List (List Char) :=
  cs.foldr
    (fun c acc =>
      if c == '\n' then [] :: acc
      else match acc with
        | [] => [[c]]
        | h :: t => (c :: h) :: t)
    [[]]

/-- Removal of one trailing carriage return, the half of the line split
regex that the newline split above does not cover. -/
def chopCR (l : List Char) : List Char :=
  match l.reverse with
  | '\r' :: rest => rest.reverse
  | _ => l

/-- Handling of one line of the line-format medication log: split at the
first separator occurrence into a date text and a label, keep the line
exactly when the date text parses. -/
def lineToEvent (line : List Char) : Option MedEvent :=
  match firstSepIdx medSep line with
  | none => none
  | some idx =>
    let dateStr := jsTrimL (line.take idx)
    let label := jsTrimL (line.drop (idx + 3))
    match parseDate (String.mk dateStr) with
    | some d => some { date := d, label := String.mk label }
    | none => none

/-- Date order on event records used by the final sorts of both event
parsers; the source comparators subtract timestamps. -/
def medLe (a b : MedEvent) : Prop :=
  a.date ≤ b.date

instance : DecidableRel medLe := fun a b => Int.decLe a.date b.date

/-- Embedding of parseMedsTxt: split into lines, trim each, drop blank
lines, convert each surviving line, and stable-sort ascending by date. -/
def parseMedsTxt (text : String) : List MedEvent :=
  let lines := ((splitNL text.data).map (fun l => jsTrimL (chopCR l))).filter
    (fun l => decide (l ≠ []))
  List.insertionSort medLe (lines.filterMap lineToEvent)

/-- Resolution of the date column of a tabular medication row: the first
truthy value among the two accepted header names. -/
def resolveMedDateStr (row : Row) : Option String :=
  jsOr (getField row "date") (getField row "Date")

/-- Handling of one tabular medication row: drop it unless its date
resolves and parses, then synthesise the label from the medication name,
the dose when it is present and positive, and the recognised action. -/
def medRowToEvent (row : Row) : Option MedEvent :=
  match resolveMedDateStr row with
  | none => none
  | some s =>
    if s = "" then none
    else
      match parseDate s with
      | none => none
      | some d =>
        let med := jsTrim ((jsOr (jsOr (getField row "medication")
          (getField row "Medication")) (some "")).getD "")
        let doseVal := jsCoalesce (jsCoalesce (getField row "dose_mg")
          (getField row "DoseMg")) (getField row "dose")
        let dose : Option ℚ := match doseVal with
          | some v => if jsTrim v = "" then none else some (parseFloatSafe (some v))
          | none => none
        let actionRaw := strUpper (jsTrim ((jsOr (jsOr (getField row "action")
          (getField row "Action")) (some "")).getD ""))
        let action := if actionRaw = "START" || actionRaw = "STOP" then actionRaw else ""
        let doseLabel := match dose with
          | some q => if 0 < q then jsNumToString q ++ " mg" else ""
          | none => ""
        let parts := String.intercalate " "
          (List.filter (fun t => decide (t ≠ "")) [med, doseLabel])
        let label := if action = "" then parts else parts ++ " - " ++ action
        some { date := d, label := label }

/-- Mean of a list of numbers with the empty mean absent, modelling the
avg helper whose empty result is NaN. -/
def avg (l : List ℚ) : Option ℚ :=
  if l.length = 0 then none else some (l.sum / (l.length : ℚ))

/-- NaN-propagating subtraction on optional numbers: defined only when
both operands are. -/
def osub (a b : Option ℚ) : Option ℚ :=
  match a, b with
  | some x, some y => some (x - y)
  | _, _ => none

/-- Embedding of the range helper of MedDeltaTable: the records dated
inside a closed day interval. -/
def dateRange (data : List SleepRow) (lo hi : ℤ) : List SleepRow :=
  data.filter (fun r => decide (lo ≤ r.date) && decide (r.date ≤ hi))

/-- Metric means of one flanking window of an event, or the deltas between
the two windows; each entry is absent when its window is empty. -/
structure Metrics where
  rem : Option ℚ
  deep : Option ℚ
  total : Option ℚ
  awake : Option ℚ
  deriving DecidableEq, Repr

/-- One row of the medication delta table: the event plus its windowed
means and their differences. -/
structure DeltaRow where
  event : MedEvent
  before : Metrics
  after : Metrics
  delta : Metrics
  deriving DecidableEq, Repr

/-- Embedding of one iteration of the MedDeltaTable row computation:
thirty-day windows flanking the event date with the event day excluded,
per-record percentages recomputed from the raw hours, window means, and
their NaN-propagating differences. -/
def medDeltaRow (data : List SleepRow) (m : MedEvent) : DeltaRow :=
  let pre := dateRange data (addDays m.date (-30)) (addDays m.date (-1))
  let post := dateRange data (addDays m.date 1) (addDays m.date 30)
  let before : Metrics :=
    { rem := avg (pre.map (fun r => pctOf r.rem r.totalSleep))
      deep := avg (pre.map (fun r => pctOf r.deep r.totalSleep))
      total := avg (pre.map SleepRow.totalSleep)
      awake := avg (pre.map SleepRow.awake) }
  let after : Metrics :=
    { rem := avg (post.map (fun r => pctOf r.rem r.totalSleep))
      deep := avg (post.map (fun r => pctOf r.deep r.totalSleep))
      total := avg (post.map SleepRow.totalSleep)
      awake := avg (post.map SleepRow.awake) }
  let delta : Metrics :=
    { rem := osub after.rem before.rem
      deep := osub after.deep before.deep
      total := osub after.total before.total
      awake := osub after.awake before.awake }
  { event := m, before := before, after := after, delta := delta }

/-- Order of the delta table rows: newest event first, from the reversed
timestamp subtraction in the source comparator. -/
def deltaRowLe (a b : DeltaRow) : Prop :=
  b.event.date ≤ a.event.date

instance : DecidableRel deltaRowLe := fun a b => Int.decLe b.event.date a.event.date

/-- Embedding of the MedDeltaTable row list: one delta row per event,
sorted newest first. -/
def medDeltaRows (meds : List MedEvent) (data : List SleepRow) : List DeltaRow :=
  List.insertionSort deltaRowLe (meds.map (medDeltaRow data))

/-- Lookup of a month key's group inside the association list the
grouping fold builds, the view of the Map that insertRow maintains. -/
def groupOf (acc : List (String × List SleepRow)) (k : String) : List SleepRow :=
  ((acc.find? (fun p => p.1 == k)).map (fun p => p.2)).getD []

instance : IsTotal SleepRow sleepLe :=
  ⟨fun a b => Int.le_total a.date b.date⟩

instance : IsTrans SleepRow sleepLe :=
  ⟨fun _ _ _ hab hbc => Int.le_trans hab hbc⟩

instance : IsTotal MedEvent medLe :=
  ⟨fun a b => Int.le_total a.date b.date⟩

instance : IsTrans MedEvent medLe :=
  ⟨fun _ _ _ hab hbc => Int.le_trans hab hbc⟩

/-- Claim C9: the monthly summary sequence is computed from the unfiltered
full record set: two runs over the same loaded records with the same sort
column and direction but different filter or rolling parameters produce
identical monthly summary sequences. -/
theorem C9_monthly_unfiltered (rows : List SleepRow) (c1 c2 : Config)
    (hs : c1.sortColumn = c2.sortColumn) (hd : c1.sortDirection = c2.sortDirection) :
    (appViews rows c1).monthlyRows = (appViews rows c2).monthlyRows := by
  simp only [appViews, hs, hd]

/-- Witness for C9 at a concrete record list and two configurations that
disagree on every filter parameter and the rolling width. -/
theorem C9_monthly_unfiltered_witness :
    (appViews [{ date := 0, totalSleep := 8, core := 4, deep := 1, rem := 2, awake := 1 }]
      { minHours := 5, maxHours := 12, dateFrom := none, dateTo := none,
        rollK := 7, sortColumn := SortCol.month, sortDirection := SortDir.asc }).monthlyRows =
    (appViews [{ date := 0, totalSleep := 8, core := 4, deep := 1, rem := 2, awake := 1 }]
      { minHours := 0, maxHours := 24, dateFrom := some 10, dateTo := some 20,
        rollK := 3, sortColumn := SortCol.month, sortDirection := SortDir.asc }).monthlyRows :=
  C9_monthly_unfiltered _ _ _ rfl rfl

/-- Claim C4: the filter stage keeps exactly the records satisfying the
conjunction of the optional lower date bound, the optional upper date
bound (inclusive of the bound day itself), and the inclusive sleep-hours
range; a record dated the day after the upper bound is excluded, and one
dated exactly the bound day is kept when the other conditions hold. -/
theorem C4_filter_conjunction (rows : List SleepRow) (df dt : Option ℤ) (mn mx : ℚ) :
    filtered rows df dt mn mx = rows.filter (fun r =>
      (match df with | some d => decide (d ≤ r.date) | none => true) &&
      ((match dt with | some d => decide (r.date ≤ d) | none => true) &&
       (decide (mn ≤ r.totalSleep) && decide (r.totalSleep ≤ mx)))) ∧
    (∀ d r, dt = some d → r.date = d + 1 → r ∉ filtered rows df dt mn mx) ∧
    (∀ d r, dt = some d → r ∈ rows → r.date = d →
      (∀ d0, df = some d0 → d0 ≤ r.date) →
      mn ≤ r.totalSleep → r.totalSleep ≤ mx → r ∈ filtered rows df dt mn mx) := by
  have hmain : filtered rows df dt mn mx = rows.filter (fun r =>
      (match df with | some d => decide (d ≤ r.date) | none => true) &&
      ((match dt with | some d => decide (r.date ≤ d) | none => true) &&
       (decide (mn ≤ r.totalSleep) && decide (r.totalSleep ≤ mx)))) := by
    cases df <;> cases dt <;>
      simp only [filtered, addDays, List.filter_filter] <;>
      refine List.filter_congr ?_ <;> intro x hx <;>
      simp [Int.lt_add_one_iff, Bool.and_comm, Bool.and_assoc, Bool.and_left_comm]
  refine ⟨hmain, ?_, ?_⟩
  · intro d r hdt hdate hmem
    rw [hmain] at hmem
    rcases List.mem_filter.mp hmem with ⟨_, hp⟩
    subst hdt
    simp only [Bool.and_eq_true, decide_eq_true_eq] at hp
    omega
  · intro d r hdt hmem hdate hdf hmn hmx
    rw [hmain]
    refine List.mem_filter.mpr ⟨hmem, ?_⟩
    subst hdt
    cases hdfo : df with
    | none => simp [hdate, hmn, hmx]
    | some d0 => simp [hdate, hmn, hmx, hdf d0 hdfo, hdate ▸ hdf d0 hdfo]

/-- Witness for C4 at a concrete record list and concrete bounds: the
record dated exactly the upper bound is kept, the one dated a day later
is not. -/
theorem C4_filter_conjunction_witness :
    filtered [{ date := 20, totalSleep := 8, core := 4, deep := 1, rem := 2, awake := 1 }]
        (some 10) (some 20) 5 12 =
      List.filter (fun r =>
        (match some (10 : ℤ) with | some d => decide (d ≤ r.date) | none => true) &&
        ((match some (20 : ℤ) with | some d => decide (r.date ≤ d) | none => true) &&
         (decide ((5 : ℚ) ≤ r.totalSleep) && decide (r.totalSleep ≤ (12 : ℚ)))))
        [{ date := 20, totalSleep := 8, core := 4, deep := 1, rem := 2, awake := 1 }] ∧
    ({ date := 21, totalSleep := 8, core := 4, deep := 1, rem := 2, awake := 1 } : SleepRow) ∉
      filtered [{ date := 20, totalSleep := 8, core := 4, deep := 1, rem := 2, awake := 1 }]
        (some 10) (some 20) 5 12 :=
  ⟨(C4_filter_conjunction _ (some 10) (some 20) 5 12).1,
   (C4_filter_conjunction _ (some 10) (some 20) 5 12).2.1 20
     { date := 21, totalSleep := 8, core := 4, deep := 1, rem := 2, awake := 1 } rfl rfl⟩

/-- Claim C10: the tabular medication parser drops a row exactly when its
date field is missing, empty, or fails to parse; a row with a parseable
date always yields an event, and when medication, dose, and action are all
absent (or the action is unrecognised) the synthesised label is empty. -/
theorem C10_med_row_keep_iff (row : Row) :
    ((medRowToEvent row).isSome ↔
      ∃ s d, resolveMedDateStr row = some s ∧ s ≠ "" ∧ parseDate s = some d) ∧
    (∀ s d, resolveMedDateStr row = some s → s ≠ "" → parseDate s = some d →
      getField row "medication" = none → getField row "Medication" = none →
      getField row "dose_mg" = none → getField row "DoseMg" = none →
      getField row "dose" = none →
      getField row "action" = none → getField row "Action" = none →
      medRowToEvent row = some { date := d, label := "" }) ∧
    medRowToEvent [("date", "2024-03-10"), ("action", "maybe")] =
      some { date := 19792, label := "" } := by
  refine ⟨?_, ?_, ?_⟩
  · cases hr : resolveMedDateStr row with
    | none => simp [medRowToEvent, hr]
    | some s =>
      by_cases hs : s = ""
      · simp [medRowToEvent, hr, hs]
      · cases hp : parseDate s with
        | none => simp [medRowToEvent, hr, hs, hp]
        | some d => simp [medRowToEvent, hr, hs, hp]
  · intro s d hr hs hp h1 h2 h3 h4 h5 h6 h7
    simp [medRowToEvent, hr, hs, hp, h1, h2, h3, h4, h5, h6, h7,
      jsOr, jsCoalesce, truthy,
      show jsTrim "" = "" from rfl, show strUpper "" = "" from rfl,
      show String.intercalate " " [] = "" from rfl]
  · rfl

/-- Witness for C10 at a row carrying only a date: the general clause
applies and produces an event with the empty label. -/
theorem C10_med_row_keep_iff_witness :
    medRowToEvent [("date", "2024-03-10")] = some { date := 19792, label := "" } :=
  (C10_med_row_keep_iff _).2.1 "2024-03-10" 19792 rfl (by decide) rfl
    rfl rfl rfl rfl rfl rfl rfl

theorem osub_none_right (a : Option ℚ) : osub a none = none := by
  cases a <;> rfl

theorem osub_none_left (b : Option ℚ) : osub none b = none := by
  cases b <;> rfl

theorem avg_eq_some (l : List ℚ) (h : l ≠ []) :
    avg l = some (l.sum / (l.length : ℚ)) := by
  simp [avg, List.length_eq_zero, h]

/-- Claim C3: the event-delta correlator takes the pre window as the
records dated within thirty days before the event and the post window as
those within thirty days after, the event day in neither; percentages are
recomputed per record before averaging; each delta is the post mean minus
the pre mean, and when either window is empty the mean and the delta are
the absent NaN value, with no error raised. -/
theorem C3_event_delta (data : List SleepRow) (m : MedEvent) :
    let pre := data.filter (fun r =>
      decide (addDays m.date (-30) ≤ r.date) && decide (r.date ≤ addDays m.date (-1)))
    let post := data.filter (fun r =>
      decide (addDays m.date 1 ≤ r.date) && decide (r.date ≤ addDays m.date 30))
    let row := medDeltaRow data m
    (addDays m.date (-30) = m.date - 30 ∧ addDays m.date (-1) = m.date - 1 ∧
     addDays m.date 1 = m.date + 1 ∧ addDays m.date 30 = m.date + 30) ∧
    (row.delta.rem = osub (avg (post.map (fun r => pctOf r.rem r.totalSleep)))
        (avg (pre.map (fun r => pctOf r.rem r.totalSleep))) ∧
     row.delta.deep = osub (avg (post.map (fun r => pctOf r.deep r.totalSleep)))
        (avg (pre.map (fun r => pctOf r.deep r.totalSleep))) ∧
     row.delta.total = osub (avg (post.map SleepRow.totalSleep))
        (avg (pre.map SleepRow.totalSleep)) ∧
     row.delta.awake = osub (avg (post.map SleepRow.awake))
        (avg (pre.map SleepRow.awake))) ∧
    (pre = [] ∨ post = [] →
      row.delta.rem = none ∧ row.delta.deep = none ∧
      row.delta.total = none ∧ row.delta.awake = none) ∧
    (pre ≠ [] → post ≠ [] →
      row.delta.rem = some ((post.map (fun r => pctOf r.rem r.totalSleep)).sum / (post.length : ℚ)
        - (pre.map (fun r => pctOf r.rem r.totalSleep)).sum / (pre.length : ℚ)) ∧
      row.delta.deep = some ((post.map (fun r => pctOf r.deep r.totalSleep)).sum / (post.length : ℚ)
        - (pre.map (fun r => pctOf r.deep r.totalSleep)).sum / (pre.length : ℚ)) ∧
      row.delta.total = some ((post.map SleepRow.totalSleep).sum / (post.length : ℚ)
        - (pre.map SleepRow.totalSleep).sum / (pre.length : ℚ)) ∧
      row.delta.awake = some ((post.map SleepRow.awake).sum / (post.length : ℚ)
        - (pre.map SleepRow.awake).sum / (pre.length : ℚ))) := by
  intro pre post row
  have hrem : row.delta.rem = osub (avg (post.map (fun r => pctOf r.rem r.totalSleep)))
      (avg (pre.map (fun r => pctOf r.rem r.totalSleep))) := rfl
  have hdeep : row.delta.deep = osub (avg (post.map (fun r => pctOf r.deep r.totalSleep)))
      (avg (pre.map (fun r => pctOf r.deep r.totalSleep))) := rfl
  have htotal : row.delta.total = osub (avg (post.map SleepRow.totalSleep))
      (avg (pre.map SleepRow.totalSleep)) := rfl
  have hawake : row.delta.awake = osub (avg (post.map SleepRow.awake))
      (avg (pre.map SleepRow.awake)) := rfl
  refine ⟨⟨by simp [addDays, sub_eq_add_neg], by simp [addDays, sub_eq_add_neg],
    by simp [addDays], by simp [addDays]⟩, ⟨hrem, hdeep, htotal, hawake⟩, ?_, ?_⟩
  · intro h
    rcases h with hpre | hpost
    · exact ⟨by simp [hrem, hpre, avg, osub_none_right],
        by simp [hdeep, hpre, avg, osub_none_right],
        by simp [htotal, hpre, avg, osub_none_right],
        by simp [hawake, hpre, avg, osub_none_right]⟩
    · exact ⟨by simp [hrem, hpost, avg, osub_none_left],
        by simp [hdeep, hpost, avg, osub_none_left],
        by simp [htotal, hpost, avg, osub_none_left],
        by simp [hawake, hpost, avg, osub_none_left]⟩
  · intro hpre hpost
    have hp1 : ∀ f : SleepRow → ℚ, pre.map f ≠ [] := by
      intro f h
      exact hpre (List.map_eq_nil_iff.mp h)
    have hp2 : ∀ f : SleepRow → ℚ, post.map f ≠ [] := by
      intro f h
      exact hpost (List.map_eq_nil_iff.mp h)
    refine ⟨?_, ?_, ?_, ?_⟩ <;>
      simp [hrem, hdeep, htotal, hawake, avg_eq_some _ (hp1 _), avg_eq_some _ (hp2 _),
        osub, List.length_map]

/-- Witness for C3 at a concrete data set and event: both windows are
non-empty and the deltas are the differences of the window means. -/
theorem C3_event_delta_witness :
    let data : List SleepRow :=
      [{ date := 15, totalSleep := 8, core := 4, deep := 1, rem := 2, awake := 1 },
       { date := 45, totalSleep := 6, core := 3, deep := 1, rem := 1, awake := 2 }]
    let m : MedEvent := { date := 40, label := "X" }
    let pre := data.filter (fun r =>
      decide (addDays m.date (-30) ≤ r.date) && decide (r.date ≤ addDays m.date (-1)))
    let post := data.filter (fun r =>
      decide (addDays m.date 1 ≤ r.date) && decide (r.date ≤ addDays m.date 30))
    let row := medDeltaRow data m
    (addDays m.date (-30) = m.date - 30 ∧ addDays m.date (-1) = m.date - 1 ∧
     addDays m.date 1 = m.date + 1 ∧ addDays m.date 30 = m.date + 30) ∧
    (row.delta.rem = osub (avg (post.map (fun r => pctOf r.rem r.totalSleep)))
        (avg (pre.map (fun r => pctOf r.rem r.totalSleep))) ∧
     row.delta.deep = osub (avg (post.map (fun r => pctOf r.deep r.totalSleep)))
        (avg (pre.map (fun r => pctOf r.deep r.totalSleep))) ∧
     row.delta.total = osub (avg (post.map SleepRow.totalSleep))
        (avg (pre.map SleepRow.totalSleep)) ∧
     row.delta.awake = osub (avg (post.map SleepRow.awake))
        (avg (pre.map SleepRow.awake))) ∧
    (pre = [] ∨ post = [] →
      row.delta.rem = none ∧ row.delta.deep = none ∧
      row.delta.total = none ∧ row.delta.awake = none) ∧
    (pre ≠ [] → post ≠ [] →
      row.delta.rem = some ((post.map (fun r => pctOf r.rem r.totalSleep)).sum / (post.length : ℚ)
        - (pre.map (fun r => pctOf r.rem r.totalSleep)).sum / (pre.length : ℚ)) ∧
      row.delta.deep = some ((post.map (fun r => pctOf r.deep r.totalSleep)).sum / (post.length : ℚ)
        - (pre.map (fun r => pctOf r.deep r.totalSleep)).sum / (pre.length : ℚ)) ∧
      row.delta.total = some ((post.map SleepRow.totalSleep).sum / (post.length : ℚ)
        - (pre.map SleepRow.totalSleep).sum / (pre.length : ℚ)) ∧
      row.delta.awake = some ((post.map SleepRow.awake).sum / (post.length : ℚ)
        - (pre.map SleepRow.awake).sum / (pre.length : ℚ))) :=
  C3_event_delta _ _

theorem rollingAux_eq {α : Type} (k : ℕ) (f : α → ℚ) (hk : 1 ≤ k) :
    ∀ (xs : List α) (q : List ℚ), q.length ≤ k →
    rollingAux k f xs q.sum q =
      (List.range xs.length).map (fun i =>
        if k ≤ q.length + i + 1 then
          some (((q ++ (xs.take (i + 1)).map f).drop (q.length + i + 1 - k)).sum / (k : ℚ))
        else none) := by
  intro xs
  induction xs with
  | nil => intro q hq; simp [rollingAux]
  | cons x xs ih =>
    intro q hq
    rw [List.length_cons, List.range_succ_eq_map, List.map_cons, List.map_map]
    rcases Nat.lt_or_ge q.length k with hlt | hge
    · have hnc : ¬ (k < (q ++ [f x]).length) := by
        simp only [List.length_append, List.length_singleton]
        omega
      simp only [rollingAux, if_neg hnc]
      have hrec : q.sum + f x = (q ++ [f x]).sum := by simp
      simp only [List.cons.injEq]
      constructor
      · by_cases hfull : (q ++ [f x]).length = k
        · have hc : k ≤ q.length + 0 + 1 := by
            simp only [List.length_append, List.length_singleton] at hfull
            omega
          rw [if_pos hc, if_pos hfull]
          have hdrop : q.length + 0 + 1 - k = 0 := by
            simp only [List.length_append, List.length_singleton] at hfull
            omega
          rw [hdrop, show List.take (0 + 1) (x :: xs) = [x] from rfl]
          simp
        · have hc : ¬ (k ≤ q.length + 0 + 1) := by
            simp only [List.length_append, List.length_singleton] at hfull
            omega
          rw [if_neg hc, if_neg hfull]
      · rw [hrec, ih (q ++ [f x]) (by simp; omega)]
        refine List.map_congr_left ?_
        intro i _
        simp only [Function.comp]
        have h1 : (x :: xs).take (i + 1 + 1) = x :: xs.take (i + 1) := rfl
        rw [h1, List.map_cons]
        have h2 : q ++ f x :: (xs.take (i + 1)).map f = (q ++ [f x]) ++ (xs.take (i + 1)).map f := by
          rw [List.append_assoc]; rfl
        rw [h2]
        have h3 : q.length + (i + 1) + 1 = (q ++ [f x]).length + i + 1 := by simp; omega
        rw [h3]
    · have hqk : q.length = k := le_antisymm hq hge
      cases q with
      | nil => simp at hqk; omega
      | cons a t =>
        have htk : t.length + 1 = k := by simpa using hqk
        have hc : k < ((a :: t) ++ [f x]).length := by simp; omega
        simp only [rollingAux, if_pos hc]
        have hhead : ((a :: t) ++ [f x]).headI = a := rfl
        have htail : ((a :: t) ++ [f x]).tail = t ++ [f x] := rfl
        rw [hhead, htail]
        have hsum : (a :: t).sum + f x - a = (t ++ [f x]).sum := by simp; ring
        have hlen : (t ++ [f x]).length = k := by simp; omega
        simp only [List.cons.injEq]
        constructor
        · rw [if_pos hlen]
          have hc0 : k ≤ (a :: t).length + 0 + 1 := by simp; omega
          rw [if_pos hc0]
          have hdrop : (a :: t).length + 0 + 1 - k = 1 := by simp; omega
          rw [hdrop]
          have h4 : (a :: t) ++ ((x :: xs).take (0 + 1)).map f = a :: (t ++ [f x]) := rfl
          rw [h4, List.drop_succ_cons, List.drop_zero, hsum]
        · rw [hsum, ih (t ++ [f x]) (le_of_eq hlen)]
          refine List.map_congr_left ?_
          intro i _
          simp only [Function.comp]
          have h1 : (x :: xs).take (i + 1 + 1) = x :: xs.take (i + 1) := rfl
          rw [h1, List.map_cons]
          have h2 : (a :: t) ++ f x :: (xs.take (i + 1)).map f =
              a :: ((t ++ [f x]) ++ (xs.take (i + 1)).map f) := by
            simp
          rw [h2]
          have h3 : (a :: t).length + (i + 1) + 1 - k = ((t ++ [f x]).length + i + 1 - k) + 1 := by
            simp; omega
          rw [h3, List.drop_succ_cons]
          have h5 : k ≤ (a :: t).length + (i + 1) + 1 := by simp; omega
          have h6 : k ≤ (t ++ [f x]).length + i + 1 := by simp; omega
          rw [if_pos h5, if_pos h6]

theorem rolling_eq {α : Type} (arr : List α) (k : ℕ) (f : α → ℚ) (hk : 1 ≤ k) :
    rolling arr k f = (List.range arr.length).map (fun i =>
      if k ≤ i + 1 then some ((((arr.take (i + 1)).map f).drop (i + 1 - k)).sum / (k : ℚ))
      else none) := by
  have h := rollingAux_eq k f hk arr [] (by simp)
  simpa [rolling] using h

/-- Claim C1: for a window width of at least one, the rolling series has
the length of its input, holds a value at an index exactly when a full
window ends there, and that value is the arithmetic mean of the window of
accessor values; for width one every entry is the accessor value itself,
and for a width exceeding the input length no entry holds a value. -/
theorem C1_rolling_window_mean {α : Type} (arr : List α) (k : ℕ) (f : α → ℚ) (hk : 1 ≤ k) :
    (rolling arr k f).length = arr.length ∧
    (∀ i, i < arr.length →
      (rolling arr k f).getD i none =
        if k ≤ i + 1 then some ((((arr.drop (i + 1 - k)).take k).map f).sum / (k : ℚ))
        else none) ∧
    (k = 1 → ∀ i, ∀ hi : i < arr.length,
      (rolling arr k f).getD i none = some (f (arr.get ⟨i, hi⟩))) ∧
    (arr.length < k → ∀ i, (rolling arr k f).getD i none = none) := by
  have hlen : (rolling arr k f).length = arr.length := by
    rw [rolling_eq arr k f hk]; simp
  have hpt : ∀ i, i < arr.length →
      (rolling arr k f).getD i none =
        if k ≤ i + 1 then some ((((arr.drop (i + 1 - k)).take k).map f).sum / (k : ℚ))
        else none := by
    intro i hi
    rw [rolling_eq arr k f hk, List.getD_eq_getElem?_getD, List.getElem?_map,
      List.getElem?_range hi]
    simp only [Option.map_some', Option.getD_some]
    by_cases hcond : k ≤ i + 1
    · rw [if_pos hcond, if_pos hcond]
      have hl : ((arr.take (i + 1)).map f).drop (i + 1 - k) =
          ((arr.drop (i + 1 - k)).take k).map f := by
        rw [← List.map_drop, List.drop_take]
        have : i + 1 - (i + 1 - k) = k := by omega
        rw [this]
      rw [hl]
    · rw [if_neg hcond, if_neg hcond]
  refine ⟨hlen, hpt, ?_, ?_⟩
  · intro hk1 i hi
    rw [hpt i hi]
    subst hk1
    rw [if_pos (by omega : 1 ≤ i + 1)]
    have h1 : i + 1 - 1 = i := by omega
    rw [h1, List.drop_eq_getElem_cons hi]
    simp only [List.take_succ_cons, List.take_zero, List.map_cons, List.map_nil,
      List.sum_cons, List.sum_nil, Nat.cast_one, div_one, add_zero]
    rfl
  · intro hN i
    by_cases hi : i < arr.length
    · rw [hpt i hi, if_neg (by omega)]
    · rw [List.getD_eq_getElem?_getD,
        List.getElem?_eq_none (by omega : (rolling arr k f).length ≤ i)]
      rfl

/-- Witness for C1 at the window width two over a three-element sequence,
discharging the width hypothesis. -/
theorem C1_rolling_window_mean_witness :
    1 ≤ 2 ∧
    ((rolling [(3 : ℚ), 5, 7] 2 id).length = [(3 : ℚ), 5, 7].length ∧
     (∀ i, i < [(3 : ℚ), 5, 7].length →
       (rolling [(3 : ℚ), 5, 7] 2 id).getD i none =
         if 2 ≤ i + 1 then
           some (((([(3 : ℚ), 5, 7].drop (i + 1 - 2)).take 2).map id).sum / (2 : ℚ))
         else none) ∧
     (2 = 1 → ∀ i, ∀ hi : i < [(3 : ℚ), 5, 7].length,
       (rolling [(3 : ℚ), 5, 7] 2 id).getD i none = some (id ([(3 : ℚ), 5, 7].get ⟨i, hi⟩))) ∧
     ([(3 : ℚ), 5, 7].length < 2 → ∀ i, (rolling [(3 : ℚ), 5, 7] 2 id).getD i none = none)) :=
  ⟨by norm_num, C1_rolling_window_mean [(3 : ℚ), 5, 7] 2 id (by norm_num)⟩

/-- Claim C5: the normaliser output is sorted ascending by date and stable
on date ties, every record comes from a row whose resolved date parsed,
and a row with no resolvable date or an unparseable date is silently
dropped. -/
theorem C5_normalizer_output (rows : List Row) :
    List.Sorted sleepLe (parseCsv rows) ∧
    (parseCsv rows).Perm (rows.filterMap normalizeRow) ∧
    (∀ rec ∈ parseCsv rows, ∃ row ∈ rows, normalizeRow row = some rec) ∧
    (∀ row, truthy (resolveDateStr row) = false → normalizeRow row = none) ∧
    (∀ row s, resolveDateStr row = some s → parseDate s = none → normalizeRow row = none) ∧
    (∀ row rec, normalizeRow row = some rec →
      ∃ s, resolveDateStr row = some s ∧ s ≠ "" ∧ parseDate s = some rec.date) ∧
    (∀ d : ℤ, (parseCsv rows).filter (fun r => decide (r.date = d)) =
      (rows.filterMap normalizeRow).filter (fun r => decide (r.date = d))) := by
  refine ⟨?_, ?_, ?_, ?_, ?_, ?_, ?_⟩
  · exact List.sorted_insertionSort sleepLe (rows.filterMap normalizeRow)
  · exact List.perm_insertionSort sleepLe (rows.filterMap normalizeRow)
  · intro rec hrec
    exact List.mem_filterMap.mp ((List.mem_insertionSort sleepLe).mp hrec)
  · intro row h
    cases hr : resolveDateStr row with
    | none => simp [normalizeRow, hr]
    | some s =>
      rw [hr] at h
      simp only [truthy, decide_eq_false_iff_not, not_not] at h
      simp [normalizeRow, hr, h]
  · intro row s hr hp
    by_cases hs : s = ""
    · simp [normalizeRow, hr, hs]
    · simp [normalizeRow, hr, hs, hp]
  · intro row rec h
    cases hr : resolveDateStr row with
    | none => simp [normalizeRow, hr] at h
    | some s =>
      by_cases hs : s = ""
      · simp [normalizeRow, hr, hs] at h
      · cases hp : parseDate s with
        | none => simp [normalizeRow, hr, hs, hp] at h
        | some dd =>
          refine ⟨s, rfl, hs, ?_⟩
          simp only [normalizeRow, hr, if_neg hs, hp, Option.some.injEq] at h
          rw [hp, ← h]
  · intro d
    have hpair : (((rows.filterMap normalizeRow).filter
        (fun r => decide (r.date = d)))).Pairwise sleepLe := by
      apply List.pairwise_of_forall_mem_list
      intro a ha b hb
      have hda : a.date = d := by simpa using (List.mem_filter.mp ha).2
      have hdb : b.date = d := by simpa using (List.mem_filter.mp hb).2
      show a.date ≤ b.date
      rw [hda, hdb]
    have hsub : ((rows.filterMap normalizeRow).filter
        (fun r => decide (r.date = d))).Sublist (parseCsv rows) :=
      List.sublist_insertionSort hpair (List.filter_sublist _)
    have hself : ((rows.filterMap normalizeRow).filter
        (fun r => decide (r.date = d))).filter (fun r => decide (r.date = d)) =
        (rows.filterMap normalizeRow).filter (fun r => decide (r.date = d)) := by
      rw [List.filter_eq_self]
      intro a ha
      exact (List.mem_filter.mp ha).2
    have hsub2 : ((rows.filterMap normalizeRow).filter
        (fun r => decide (r.date = d))).Sublist
        ((parseCsv rows).filter (fun r => decide (r.date = d))) := by
      have h2 := List.Sublist.filter (fun r => decide (r.date = d)) hsub
      rwa [hself] at h2
    have hlen : ((parseCsv rows).filter (fun r => decide (r.date = d))).length =
        ((rows.filterMap normalizeRow).filter (fun r => decide (r.date = d))).length :=
      ((List.perm_insertionSort sleepLe (rows.filterMap normalizeRow)).filter
        (fun r => decide (r.date = d))).length_eq
    exact (hsub2.eq_of_length hlen.symm).symm

/-- Witness for C5 at a concrete row list containing an unparseable date,
a missing date, and two parseable rows given out of order. -/
theorem C5_normalizer_output_witness :
    List.Sorted sleepLe (parseCsv [[("date", "2024-01-02")], [("date", "bad")],
      [("x", "1")], [("date", "2024-01-01")]]) ∧
    (parseCsv [[("date", "2024-01-02")], [("date", "bad")],
      [("x", "1")], [("date", "2024-01-01")]]).Perm
      ([[("date", "2024-01-02")], [("date", "bad")],
        [("x", "1")], [("date", "2024-01-01")]].filterMap normalizeRow) ∧
    (∀ rec ∈ parseCsv [[("date", "2024-01-02")], [("date", "bad")],
        [("x", "1")], [("date", "2024-01-01")]],
      ∃ row ∈ [[("date", "2024-01-02")], [("date", "bad")],
        [("x", "1")], [("date", "2024-01-01")]], normalizeRow row = some rec) ∧
    (∀ row, truthy (resolveDateStr row) = false → normalizeRow row = none) ∧
    (∀ row s, resolveDateStr row = some s → parseDate s = none → normalizeRow row = none) ∧
    (∀ row rec, normalizeRow row = some rec →
      ∃ s, resolveDateStr row = some s ∧ s ≠ "" ∧ parseDate s = some rec.date) ∧
    (∀ d : ℤ, (parseCsv [[("date", "2024-01-02")], [("date", "bad")],
        [("x", "1")], [("date", "2024-01-01")]]).filter (fun r => decide (r.date = d)) =
      ([[("date", "2024-01-02")], [("date", "bad")],
        [("x", "1")], [("date", "2024-01-01")]].filterMap normalizeRow).filter
        (fun r => decide (r.date = d))) :=
  C5_normalizer_output [[("date", "2024-01-02")], [("date", "bad")],
    [("x", "1")], [("date", "2024-01-01")]]

theorem groupOf_insertRow (acc : List (String × List SleepRow)) (key : String) (r : SleepRow)
    (k : String) :
    groupOf (insertRow acc key r) k = if k = key then groupOf acc k ++ [r] else groupOf acc k := by
  induction acc with
  | nil =>
    by_cases h : k = key
    · subst h; simp [groupOf, insertRow]
    · simp [groupOf, insertRow, h, Ne.symm h]
  | cons hd rest ih =>
    obtain ⟨k0, rs⟩ := hd
    by_cases h0 : k0 = key
    · subst h0
      by_cases h : k = k0
      · subst h; simp [groupOf, insertRow]
      · simp [groupOf, insertRow, h, Ne.symm h]
    · by_cases h : k = k0
      · have hne : ¬ k = key := by rw [h]; exact h0
        simp [groupOf, insertRow, h0, h.symm, hne]
      · simp only [insertRow, if_neg h0]
        have hcons : ∀ (l : List (String × List SleepRow)),
            groupOf ((k0, rs) :: l) k = groupOf l k := by
          intro l
          simp [groupOf, Ne.symm h]
        rw [hcons, hcons, ih]

theorem groupOf_foldl (rows : List SleepRow) :
    ∀ (acc : List (String × List SleepRow)) (k : String),
    groupOf (rows.foldl (fun a r => insertRow a (formatYM r.date) r) acc) k =
      groupOf acc k ++ rows.filter (fun r => formatYM r.date == k) := by
  induction rows with
  | nil => intro acc k; simp
  | cons r rows ih =>
    intro acc k
    rw [List.foldl_cons, ih, groupOf_insertRow]
    by_cases h : formatYM r.date = k
    · rw [if_pos h.symm]
      simp [h, List.append_assoc]
    · rw [if_neg (Ne.symm h)]
      have hb : (formatYM r.date == k) = false := beq_eq_false_iff_ne.mpr h
      simp [hb]

theorem keys_insertRow (acc : List (String × List SleepRow)) (key : String) (r : SleepRow) :
    (insertRow acc key r).map Prod.fst =
      if key ∈ acc.map Prod.fst then acc.map Prod.fst else acc.map Prod.fst ++ [key] := by
  induction acc with
  | nil => simp [insertRow]
  | cons hd rest ih =>
    obtain ⟨k0, rs⟩ := hd
    by_cases h0 : k0 = key
    · subst h0
      simp [insertRow]
    · simp [insertRow, h0, ih, Ne.symm h0]
      by_cases hin : key ∈ rest.map Prod.fst <;> simp [hin, Ne.symm h0]

theorem nodup_keys_insertRow (acc : List (String × List SleepRow)) (key : String) (r : SleepRow)
    (h : (acc.map Prod.fst).Nodup) : ((insertRow acc key r).map Prod.fst).Nodup := by
  rw [keys_insertRow]
  by_cases hin : key ∈ acc.map Prod.fst
  · simp [hin, h]
  · simp [hin, List.nodup_append, h]

theorem nodup_keys_foldl (rows : List SleepRow) :
    ∀ acc : List (String × List SleepRow), (acc.map Prod.fst).Nodup →
    (((rows.foldl (fun a r => insertRow a (formatYM r.date) r) acc)).map Prod.fst).Nodup := by
  induction rows with
  | nil => intro acc h; simpa using h
  | cons r rows ih =>
    intro acc h
    rw [List.foldl_cons]
    exact ih _ (nodup_keys_insertRow acc _ r h)

theorem find?_eq_of_mem_nodup :
    ∀ (acc : List (String × List SleepRow)), (acc.map Prod.fst).Nodup →
    ∀ k g, (k, g) ∈ acc → acc.find? (fun p => p.1 == k) = some (k, g) := by
  intro acc
  induction acc with
  | nil => intro _ k g hm; simp at hm
  | cons hd rest ih =>
    intro hnd k g hm
    obtain ⟨k0, g0⟩ := hd
    have hnd2 : (rest.map Prod.fst).Nodup := (List.nodup_cons.mp (by simpa using hnd)).2
    have hk0 : k0 ∉ rest.map Prod.fst := (List.nodup_cons.mp (by simpa using hnd)).1
    rcases List.mem_cons.mp hm with heq | htl
    · rw [Prod.mk.injEq] at heq
      obtain ⟨h1, h2⟩ := heq
      subst h1
      subst h2
      simp
    · have hkmem : k ∈ rest.map Prod.fst := List.mem_map.mpr ⟨(k, g), htl, rfl⟩
      have hne : ¬ (k0 = k) := fun hc => hk0 (hc ▸ hkmem)
      simp only [List.find?]
      have hb : ((k0, g0).1 == k) = false := beq_eq_false_iff_ne.mpr hne
      rw [hb]
      exact ih hnd2 k g htl

theorem groups_ne_nil_insertRow (acc : List (String × List SleepRow)) (key : String)
    (r : SleepRow) (h : ∀ q ∈ acc, q.2 ≠ []) :
    ∀ q ∈ insertRow acc key r, q.2 ≠ [] := by
  induction acc with
  | nil =>
    intro q hq
    simp [insertRow] at hq
    subst hq
    simp
  | cons hd rest ih =>
    obtain ⟨k0, rs⟩ := hd
    intro q hq
    by_cases h0 : k0 = key
    · rw [insertRow, if_pos h0] at hq
      rcases List.mem_cons.mp hq with heq | htl
      · subst heq; simp
      · exact h q (List.mem_cons_of_mem _ htl)
    · rw [insertRow, if_neg h0] at hq
      rcases List.mem_cons.mp hq with heq | htl
      · subst heq
        exact h (k0, rs) (List.mem_cons_self _ _)
      · exact ih (fun q hq2 => h q (List.mem_cons_of_mem _ hq2)) q htl

theorem groups_ne_nil_foldl (rows : List SleepRow) :
    ∀ acc : List (String × List SleepRow), (∀ q ∈ acc, q.2 ≠ []) →
    ∀ q ∈ rows.foldl (fun a r => insertRow a (formatYM r.date) r) acc, q.2 ≠ [] := by
  induction rows with
  | nil => intro acc h; simpa using h
  | cons r rows ih =>
    intro acc h
    rw [List.foldl_cons]
    exact ih _ (groups_ne_nil_insertRow acc _ r h)

theorem monthGroups_mem (rows : List SleepRow) (p : String × List SleepRow)
    (hp : p ∈ monthGroups rows) :
    p.2 = rows.filter (fun r => formatYM r.date == p.1) ∧ p.2 ≠ [] := by
  have h1 : p ∈ rows.foldl (fun a r => insertRow a (formatYM r.date) r) [] := by
    have hp2 : p ∈ List.insertionSort keyLt
        (rows.foldl (fun a r => insertRow a (formatYM r.date) r) []) := by
      simpa [monthGroups] using hp
    exact (List.mem_insertionSort keyLt).mp hp2
  have hnd := nodup_keys_foldl rows [] (by simp)
  obtain ⟨k, g⟩ := p
  have h2 := find?_eq_of_mem_nodup _ hnd k g h1
  have h3 : groupOf (rows.foldl (fun a r => insertRow a (formatYM r.date) r) []) k = g := by
    simp [groupOf, h2]
  have h4 := groupOf_foldl rows [] k
  rw [h3] at h4
  have hgrp : g = rows.filter (fun r => formatYM r.date == k) := by
    simpa [groupOf] using h4
  exact ⟨hgrp, groups_ne_nil_foldl rows [] (by simp) (k, g) h1⟩

example : monthGroups [{ date := 0, totalSleep := -1, core := 0, deep := 0, rem := 1, awake := 2 }] =
    [("1970-01", [{ date := 0, totalSleep := -1, core := 0, deep := 0, rem := 1, awake := 2 }])] := rfl
example : decide ((0:ℚ) < -1) = false := rfl
example : (summarize "1970-01"
    [{ date := 0, totalSleep := -1, core := 0, deep := 0, rem := 1, awake := 2 }]).remPct = 0 := rfl
example : (withPcts { date := 0, totalSleep := -1, core := 0, deep := 0, rem := 1, awake := 2 }).remPct
    = -100 := by norm_num [withPcts, pctOf]

/-- Claim C2 (amended): every entry of monthGroups is the non-empty list
of records sharing its calendar-month key; the summary's total and awake
means average the whole group while the percentage means average only the
records with positive total sleep, zero when none; and a single-record
month with non-negative total sleep reproduces that record's own values. -/
theorem C2_monthly_group_means (rows : List SleepRow) (p : String × List SleepRow)
    (hp : p ∈ monthGroups rows) :
    p.2 ≠ [] ∧
    p.2 = rows.filter (fun r => formatYM r.date == p.1) ∧
    (summarize p.1 p.2).total = (p.2.map SleepRow.totalSleep).sum / (p.2.length : ℚ) ∧
    (summarize p.1 p.2).awake = (p.2.map SleepRow.awake).sum / (p.2.length : ℚ) ∧
    (summarize p.1 p.2).remPct =
      (if 0 < (p.2.filter (fun r => decide (0 < r.totalSleep))).length then
        ((p.2.filter (fun r => decide (0 < r.totalSleep))).map
          (fun r => r.rem / r.totalSleep * 100)).sum /
          (((p.2.filter (fun r => decide (0 < r.totalSleep))).length : ℚ))
      else 0) ∧
    (summarize p.1 p.2).deepPct =
      (if 0 < (p.2.filter (fun r => decide (0 < r.totalSleep))).length then
        ((p.2.filter (fun r => decide (0 < r.totalSleep))).map
          (fun r => r.deep / r.totalSleep * 100)).sum /
          (((p.2.filter (fun r => decide (0 < r.totalSleep))).length : ℚ))
      else 0) ∧
    (∀ r, p.2 = [r] → 0 ≤ r.totalSleep →
      (summarize p.1 p.2).total = r.totalSleep ∧
      (summarize p.1 p.2).awake = r.awake ∧
      (summarize p.1 p.2).remPct = pctOf r.rem r.totalSleep ∧
      (summarize p.1 p.2).deepPct = pctOf r.deep r.totalSleep ∧
      (summarize p.1 p.2).n = 1) := by
  obtain ⟨hgrp, hne⟩ := monthGroups_mem rows p hp
  refine ⟨hne, hgrp, rfl, rfl, rfl, rfl, ?_⟩
  intro r hr hnn
  rw [hr]
  by_cases hpos : 0 < r.totalSleep
  · have hts : r.totalSleep ≠ 0 := ne_of_gt hpos
    refine ⟨by simp [summarize], by simp [summarize], ?_, ?_, by simp [summarize]⟩
    · simp [summarize, pctOf, hpos, hts]
    · simp [summarize, pctOf, hpos, hts]
  · have hz : r.totalSleep = 0 := le_antisymm (not_lt.mp hpos) hnn
    refine ⟨by simp [summarize], by simp [summarize], ?_, ?_, by simp [summarize]⟩
    · simp [summarize, pctOf, hz]
    · simp [summarize, pctOf, hz]

/-- Counterexample to claim C2 as stated: a month whose single record has
a negative total sleep yields a percentage mean of zero while the record's
own derived percentage is minus one hundred. -/
theorem C2_counterexample :
    ("1970-01", [({ date := 0, totalSleep := -1, core := 0, deep := 0, rem := 1, awake := 2 } : SleepRow)]) ∈ monthGroups [{ date := 0, totalSleep := -1, core := 0, deep := 0, rem := 1, awake := 2 }] ∧
    (summarize "1970-01" [{ date := 0, totalSleep := -1, core := 0, deep := 0, rem := 1, awake := 2 }]).remPct = 0 ∧
    (withPcts { date := 0, totalSleep := -1, core := 0, deep := 0, rem := 1, awake := 2 }).remPct = -100 ∧
    ((0 : ℚ) ≠ -100) := by
  have he : monthGroups [{ date := 0, totalSleep := -1, core := 0, deep := 0, rem := 1, awake := 2 }] = [("1970-01", [({ date := 0, totalSleep := -1, core := 0, deep := 0, rem := 1, awake := 2 } : SleepRow)])] := rfl
  refine ⟨?_, rfl, ?_, ?_⟩
  · rw [he]
    exact List.mem_singleton.mpr rfl
  · norm_num [withPcts, pctOf]
  · norm_num

/-- Witness for C2 at a one-record data set, discharging the group
membership hypothesis. -/
theorem C2_monthly_group_means_witness :
    (("1970-01", [({ date := 0, totalSleep := 8, core := 4, deep := 1, rem := 2, awake := 1 } : SleepRow)]) ∈ monthGroups [{ date := 0, totalSleep := 8, core := 4, deep := 1, rem := 2, awake := 1 }]) ∧
    ([({ date := 0, totalSleep := 8, core := 4, deep := 1, rem := 2, awake := 1 } : SleepRow)] ≠ ([] : List SleepRow) ∧
     (summarize "1970-01" [({ date := 0, totalSleep := 8, core := 4, deep := 1, rem := 2, awake := 1 } : SleepRow)]).total = (([({ date := 0, totalSleep := 8, core := 4, deep := 1, rem := 2, awake := 1 } : SleepRow)]).map SleepRow.totalSleep).sum / (([({ date := 0, totalSleep := 8, core := 4, deep := 1, rem := 2, awake := 1 } : SleepRow)]).length : ℚ)) := by
  have he : monthGroups [{ date := 0, totalSleep := 8, core := 4, deep := 1, rem := 2, awake := 1 }] = [("1970-01", [({ date := 0, totalSleep := 8, core := 4, deep := 1, rem := 2, awake := 1 } : SleepRow)])] := rfl
  have hmem : ("1970-01", [({ date := 0, totalSleep := 8, core := 4, deep := 1, rem := 2, awake := 1 } : SleepRow)]) ∈ monthGroups [{ date := 0, totalSleep := 8, core := 4, deep := 1, rem := 2, awake := 1 }] := by
    rw [he]
    exact List.mem_singleton.mpr rfl
  have h := C2_monthly_group_means _ _ hmem
  exact ⟨hmem, h.1, h.2.2.1⟩

/-- Counterexample to claim C6 as stated: the normaliser does not clamp
negatives, so a row whose awake column reads minus one produces a record
with a negative hour field. -/
theorem C6_counterexample :
    (normalizeRow [("Date", "2024-01-01"), ("Awake (hr)", "-1")]).map SleepRow.awake =
      some (-1) ∧
    ¬ ((0 : ℚ) ≤ -1) := by
  constructor
  · have h1 : normalizeRow [("Date", "2024-01-01"), ("Awake (hr)", "-1")] =
        some { date := 19723, totalSleep := parseFloatSafe none, core := parseFloatSafe none,
               deep := parseFloatSafe none, rem := parseFloatSafe none,
               awake := parseFloatSafe (some "-1") } := rfl
    have h2 : parseFloatSafe (some "-1") = -1 := by
      norm_num [parseFloatSafe, jsParseFloat, replaceFirstComma, digitsVal, digitVal,
        List.dropWhile, List.takeWhile,
        show '1'.isDigit = true from rfl, show ('-' : Char).isDigit = false from rfl,
        show isJsSpace '1' = false from rfl, show isJsSpace '-' = false from rfl,
        show '1'.toNat = 49 from rfl,
        show (('-' : Char) == ',') = false from rfl, show (('1' : Char) == ',') = false from rfl]
    rw [h1, Option.map_some']
    rw [show ({ date := 19723, totalSleep := parseFloatSafe none, core := parseFloatSafe none, deep := parseFloatSafe none, rem := parseFloatSafe none, awake := parseFloatSafe (some "-1") } : SleepRow).awake = parseFloatSafe (some "-1") from rfl]
    rw [h2]
  · norm_num

/-- Claim C6 (amended): every record the normaliser produces carries the
parseFloatSafe coercion of each hour column, and that coercion is total:
an absent value and an unparseable value both coerce to zero, a parseable
value (after normalising the first locale comma to a decimal point) to its
exact number, never an undefined value and never aborting the row; the
fields are however not guaranteed non-negative. -/
theorem C6_numeric_fields (row : Row) (rec : SleepRow) (h : normalizeRow row = some rec) :
    (rec.totalSleep = parseFloatSafe (jsCoalesce (jsCoalesce (getField row "Total Sleep (hr)")
        (getField row "Asleep (hr)")) (getField row "TotalSleep")) ∧
     rec.core = parseFloatSafe (jsCoalesce (getField row "Core (hr)") (getField row "Core")) ∧
     rec.deep = parseFloatSafe (jsCoalesce (getField row "Deep (hr)") (getField row "Deep")) ∧
     rec.rem = parseFloatSafe (jsCoalesce (getField row "REM (hr)") (getField row "REM")) ∧
     rec.awake = parseFloatSafe (jsCoalesce (getField row "Awake (hr)") (getField row "Awake"))) ∧
    parseFloatSafe none = 0 ∧
    (∀ s, jsParseFloat (String.mk (replaceFirstComma s.data)) = none →
      parseFloatSafe (some s) = 0) ∧
    (∀ s q, jsParseFloat (String.mk (replaceFirstComma s.data)) = some q →
      parseFloatSafe (some s) = q) ∧
    parseFloatSafe (some "7,5") = 15 / 2 := by
  refine ⟨?_, rfl, ?_, ?_, ?_⟩
  · cases hr : resolveDateStr row with
    | none => simp [normalizeRow, hr] at h
    | some s =>
      by_cases hs : s = ""
      · simp [normalizeRow, hr, hs] at h
      · cases hp : parseDate s with
        | none => simp [normalizeRow, hr, hs, hp] at h
        | some dd =>
          simp only [normalizeRow, hr, if_neg hs, hp, Option.some.injEq] at h
          rw [← h]
          exact ⟨rfl, rfl, rfl, rfl, rfl⟩
  · intro s hnone
    simp [parseFloatSafe, hnone]
  · intro s q hq
    simp [parseFloatSafe, hq]
  · norm_num [parseFloatSafe, jsParseFloat, replaceFirstComma, digitsVal, digitVal,
      List.dropWhile, List.takeWhile,
      show '7'.isDigit = true from rfl, show '5'.isDigit = true from rfl,
      show ('.' : Char).isDigit = false from rfl,
      show isJsSpace '7' = false from rfl, show isJsSpace '5' = false from rfl,
      show isJsSpace '.' = false from rfl,
      show '7'.toNat = 55 from rfl, show '5'.toNat = 53 from rfl,
      show (('7' : Char) == ',') = false from rfl,
      show ((',' : Char) == ',') = true from rfl] <;> rfl

/-- Witness for C6 at a row with only a date column: every hour field of
the produced record is the zero coercion. -/
theorem C6_numeric_fields_witness :
    (({ date := 19723, totalSleep := 0, core := 0, deep := 0, rem := 0, awake := 0 } : SleepRow).totalSleep = parseFloatSafe (jsCoalesce (jsCoalesce (getField [("date", "2024-01-01")] "Total Sleep (hr)") (getField [("date", "2024-01-01")] "Asleep (hr)")) (getField [("date", "2024-01-01")] "TotalSleep")) ∧
     ({ date := 19723, totalSleep := 0, core := 0, deep := 0, rem := 0, awake := 0 } : SleepRow).core = parseFloatSafe (jsCoalesce (getField [("date", "2024-01-01")] "Core (hr)") (getField [("date", "2024-01-01")] "Core")) ∧
     ({ date := 19723, totalSleep := 0, core := 0, deep := 0, rem := 0, awake := 0 } : SleepRow).deep = parseFloatSafe (jsCoalesce (getField [("date", "2024-01-01")] "Deep (hr)") (getField [("date", "2024-01-01")] "Deep")) ∧
     ({ date := 19723, totalSleep := 0, core := 0, deep := 0, rem := 0, awake := 0 } : SleepRow).rem = parseFloatSafe (jsCoalesce (getField [("date", "2024-01-01")] "REM (hr)") (getField [("date", "2024-01-01")] "REM")) ∧
     ({ date := 19723, totalSleep := 0, core := 0, deep := 0, rem := 0, awake := 0 } : SleepRow).awake = parseFloatSafe (jsCoalesce (getField [("date", "2024-01-01")] "Awake (hr)") (getField [("date", "2024-01-01")] "Awake"))) ∧
    parseFloatSafe none = 0 ∧
    (∀ s, jsParseFloat (String.mk (replaceFirstComma s.data)) = none →
      parseFloatSafe (some s) = 0) ∧
    (∀ s q, jsParseFloat (String.mk (replaceFirstComma s.data)) = some q →
      parseFloatSafe (some s) = q) ∧
    parseFloatSafe (some "7,5") = 15 / 2 :=
  C6_numeric_fields [("date", "2024-01-01")]
    { date := 19723, totalSleep := 0, core := 0, deep := 0, rem := 0, awake := 0 } rfl

theorem firstSepIdx_first_occurrence (sep : List Char) (hsep : sep ≠ []) :
    ∀ (l : List Char) (i : ℕ), firstSepIdx sep l = some i →
      (l.drop i).take sep.length = sep ∧ ∀ j < i, (l.drop j).take sep.length ≠ sep := by
  intro l
  induction l with
  | nil =>
    intro i h
    simp [firstSepIdx, hsep] at h
  | cons c rest ih =>
    intro i h
    rw [firstSepIdx] at h
    by_cases hm : ((c :: rest).take sep.length == sep) = true
    · rw [if_pos hm] at h
      obtain rfl : (0 : ℕ) = i := Option.some.injEq .. ▸ h
      refine ⟨by simpa using (beq_iff_eq.mp hm), ?_⟩
      intro j hj
      omega
    · rw [if_neg hm] at h
      rcases Option.map_eq_some'.mp h with ⟨i0, hi0, hplus⟩
      obtain ⟨h1, h2⟩ := ih i0 hi0
      subst hplus
      refine ⟨by simpa using h1, ?_⟩
      intro j hj
      cases j with
      | zero =>
        simpa using fun hc => hm (beq_iff_eq.mpr hc)
      | succ j0 =>
        rw [List.drop_succ_cons]
        exact h2 j0 (by omega)

/-- Claim C8: a line of the line-format medication log splits at the
first occurrence of the separator into a date text and a label, lines
with an unparseable date text (or no separator) are dropped, and the
concrete scenario line parses to the expected event. -/
theorem C8_line_format :
    (∀ (line : List Char) (i : ℕ), firstSepIdx medSep line = some i →
      ((line.drop i).take 3 = medSep ∧
       (∀ j < i, (line.drop j).take 3 ≠ medSep) ∧
       lineToEvent line = (match parseDate (String.mk (jsTrimL (line.take i))) with
         | some d => some { date := d, label := String.mk (jsTrimL (line.drop (i + 3))) }
         | none => none))) ∧
    (∀ line, firstSepIdx medSep line = none → lineToEvent line = none) ∧
    parseMedsTxt "2024-03-10 - Sertraline 50mg - START" =
      [{ date := 19792, label := "Sertraline 50mg - START" }] := by
  refine ⟨?_, ?_, ?_⟩
  · intro line i h
    obtain ⟨h1, h2⟩ := firstSepIdx_first_occurrence medSep (by decide) line i h
    refine ⟨by simpa using h1, by simpa using h2, ?_⟩
    simp only [lineToEvent, h]
  · intro line h
    simp only [lineToEvent, h]
  · rfl

/-- Witness for C8 at the concrete scenario line, whose first separator
occurrence is at index ten. -/
theorem C8_line_format_witness :
    (("2024-03-10 - Sertraline 50mg - START".data.drop 10).take 3 = medSep ∧
     (∀ j < 10, ("2024-03-10 - Sertraline 50mg - START".data.drop j).take 3 ≠ medSep) ∧
     lineToEvent "2024-03-10 - Sertraline 50mg - START".data =
       (match parseDate (String.mk (jsTrimL ("2024-03-10 - Sertraline 50mg - START".data.take 10))) with
         | some d => some { date := d, label := String.mk (jsTrimL ("2024-03-10 - Sertraline 50mg - START".data.drop (10 + 3))) }
         | none => none)) ∧
    parseMedsTxt "2024-03-10 - Sertraline 50mg - START" =
      [{ date := 19792, label := "Sertraline 50mg - START" }] :=
  ⟨C8_line_format.1 "2024-03-10 - Sertraline 50mg - START".data 10 rfl, C8_line_format.2.2⟩
